import Mathlib

/-!
A shallow embedding of the `errc` error-funnel package (files `errc.go`-style
core and `handler.go`) and proofs about its error-detection, cleanup and
finalize behaviour.

Modelling conventions:
* Go `error` values are `Option GoError` (`none` = nil).  `GoError.tag n`
  stands for an ordinary error value (`errors.New`); `GoError.panicked v`
  stands for `fmt.Errorf("errd: paniced: %v", r)` built by `Handle` when an
  external panic payload is not an error.
* Go panics are modelled as an explicit `Option PanicVal` result threaded
  through every operation (`none` = normal return).  The private sentinel
  `errOurPanic` is the constructor `PanicVal.ourPanic`; since the Go value is
  unexported, user code (deferred actions, external panics) can only raise
  `ExtPanic` payloads, which is expressed by the type of `DeferAction`.
* The `Catcher`'s slice `deferred` is modelled head-as-top (Go pushes at the
  end of the slice and pops from the end).
* Two ghost fields instrument the state without affecting behaviour:
  `writeLog` records every value stored through the caller-owned pointer
  `e.err` (each `*e.err = v` appends `v`), and `calls` records the argument of
  every deferred action at the moment it is invoked.
-/

namespace Errc

/-- Go `error` values that occur in this development. -/
inductive GoError where
  | tag (n : Nat)
  | panicked (v : Nat)
deriving DecidableEq, Repr

/-- The read-only view handlers receive (`State` in the source): `Panicking()`
returns `inPanic`, `Err()` returns the contents of the bound error slot. -/
structure StateView where
  inPanic : Bool
  err : Option GoError

/-- `State.Panicking` of the source. -/
def StateView.Panicking (s : StateView) : Bool := s.inPanic

/-- `State.Err` of the source (the slot pointer is always bound here). -/
def StateView.Err (s : StateView) : Option GoError := s.err

/-- A `Handler` processes a detected (non-nil) error: it may absorb it
(`none`), or replace it (`some`). -/
def Handler := StateView → GoError → Option GoError

/-- `Discard` from `handler.go`: always absorbs. -/
def Discard : Handler := fun _ _ => none

/-- Payload of an external (user-caused) panic: either an error value
(`r.(error)` succeeds in `Handle`) or some other value. -/
inductive ExtPanic where
  | errVal (e : GoError)
  | other (v : Nat)
deriving DecidableEq, Repr

/-- A value travelling up the stack as a panic: the package-private sentinel
`errOurPanic`, or an external payload. -/
inductive PanicVal where
  | ourPanic
  | ext (p : ExtPanic)
deriving DecidableEq, Repr

/-- A deferred cleanup action: invoked with the live state view and its bound
argument; returns an optional error, or panics (externally only — the sentinel
is unexported, so user code cannot raise it). -/
def DeferAction := StateView → Nat → Except ExtPanic (Option GoError)

/-- One entry of the `deferred` stack (`deferData` in the source): either a
handler marker (`f == nil`, `x` holding a `Handler`) or an action with its
argument. -/
inductive DeferData where
  | marker (h : Handler)
  | action (f : DeferAction) (x : Nat)

/-- Whether an entry is a handler marker (`d.f == nil` in the source). -/
def DeferData.isMarker : DeferData → Bool
  | .marker _ => true
  | .action _ _ => false

/-- The handler held by a marker entry (`d.x.(Handler)` in the source). -/
def DeferData.markerHandler : DeferData → Option Handler
  | .marker h => some h
  | .action _ _ => none

/-- The argument of an action entry, `none` for markers; used by the ghost
invocation log. -/
def DeferData.actionId : DeferData → Option Nat
  | .marker _ => none
  | .action _ x => some x

/-- The arguments of the action entries of a stack segment, top first. -/
def actionIds (ds : List DeferData) : List Nat :=
  ds.filterMap DeferData.actionId

/-- The `core` record of the source.  `err` is the contents of the
caller-owned slot the `Catcher` was bound to; `writeLog` and `calls` are ghost
instrumentation (see the file comment). -/
structure Core where
  defaultHandlers : List Handler
  deferred : List DeferData
  err : Option GoError
  inPanic : Bool
  writeLog : List GoError
  calls : List Nat

/-- `Catch(err, h...)`: a fresh `Catcher` bound to a slot currently holding
`err0`, with default handler chain `h`. -/
def Catch (err0 : Option GoError) (h : List Handler) : Core :=
  { defaultHandlers := h, deferred := [], err := err0, inPanic := false,
    writeLog := [], calls := [] }

/-- The state view `(*state)(e)` passed to handlers and deferred actions. -/
def stateView (e : Core) : StateView := ⟨e.inPanic, e.err⟩

/-- A store `*e.err = v` through the caller-owned pointer (always of a non-nil
error in the source); the ghost `writeLog` records it. -/
def writeSlot (e : Core) (v : GoError) : Core :=
  { e with err := some v, writeLog := e.writeLog ++ [v] }

/-- The loop of `errorHandler.handle` applications: apply each handler in turn
to the mutable local error copy; `none` means some handler absorbed the error
(`done`), `some err` is the surviving value after the whole list ran. -/
def applyChain (s : StateView) : List Handler → GoError → Option GoError
  | [], err => some err
  | h :: hs, err =>
    match h s err with
    | none => none
    | some newErr => applyChain s hs newErr

/-- The consecutive marker entries at the top of a stack segment, their
handlers in top-down order — what the scan
`for i := len(e.deferred); i > 0 && e.deferred[i-1].f == nil; i--` visits. -/
def markerHandlers (ds : List DeferData) : List Handler :=
  (ds.takeWhile DeferData.isMarker).filterMap DeferData.markerHandler

/-- `processDeferError` of the source: resolve a failed cleanup's error
through the markers at the top of the (already-popped) stack if any
(`hadHandler`), else through `defaultHandlers`; a surviving error is stored
only if the slot is still nil. -/
def processDeferError (e : Core) (err : GoError) : Core :=
  match applyChain (stateView e) (markerHandlers e.deferred) err with
  | none => e
  | some err1 =>
    match (if (markerHandlers e.deferred).isEmpty then
             applyChain (stateView e) e.defaultHandlers err1
           else some err1) with
    | none => e
    | some err2 => if e.err.isNone then writeSlot e err2 else e

/-- The loop body of `doDefers`, structurally recursive on the stack; callers
maintain the invariant `e.deferred = ds`.  Each iteration pops the top entry
*before* invoking it; markers are skipped (`d.f == nil`); a panicking action
propagates immediately; a failed action's error goes through
`processDeferError`. -/
def doDefersGo (barrier : Nat) : List DeferData → Core → Option ExtPanic × Core
  | [], e => (none, e)
  | .marker _ :: rest, e =>
    if rest.length + 1 > barrier then doDefersGo barrier rest { e with deferred := rest }
    else (none, e)
  | .action f x :: rest, e =>
    if rest.length + 1 > barrier then
      match f (stateView { e with deferred := rest, calls := e.calls ++ [x] }) x with
      | .error p => (some p, { e with deferred := rest, calls := e.calls ++ [x] })
      | .ok none => doDefersGo barrier rest { e with deferred := rest, calls := e.calls ++ [x] }
      | .ok (some err) =>
        doDefersGo barrier rest
          (processDeferError { e with deferred := rest, calls := e.calls ++ [x] } err)
    else (none, e)

/-- `doDefers(e, barrier)` of the source. -/
def doDefers (e : Core) (barrier : Nat) : Option ExtPanic × Core :=
  doDefersGo barrier e.deferred e

/-- `bail`: flush the whole stack now, then panic with the private sentinel —
unless a cleanup action itself panicked, in which case that panic propagates
and `panic(errOurPanic)` is never reached. -/
def bail (e : Core) : Option PanicVal × Core :=
  match doDefers e 0 with
  | (some p, e') => (some (.ext p), e')
  | (none, e') => (some .ourPanic, e')

/-- `processError` of the source: run the per-call handlers; only when none
were given (the `len(handlers) == 0` test), run `defaultHandlers` instead; an
absorbed error returns normally with the state untouched; a surviving error is
stored if the slot is still nil, and then `bail` unwinds. -/
def processError : Core → GoError → List Handler → Option PanicVal × Core
  | e, err, [] =>
    match applyChain (stateView e) e.defaultHandlers err with
    | none => (none, e)
    | some err2 => bail (if e.err.isNone then writeSlot e err2 else e)
  | e, err, h0 :: hs =>
    match applyChain (stateView e) (h0 :: hs) err with
    | none => (none, e)
    | some err2 => bail (if e.err.isNone then writeSlot e err2 else e)

/-- `Must(err, h...)`: no-op on nil, else `processError`. -/
def Must : Core → Option GoError → List Handler → Option PanicVal × Core
  | e, none, _ => (none, e)
  | e, some err, h => processError e err h

/-- The error `Handle` builds from an external panic payload:
`r.(error)` when the payload is an error, else
`fmt.Errorf("errd: paniced: %v", r)`. -/
def wrapPanic : ExtPanic → GoError
  | .errVal e => e
  | .other v => .panicked v

/-- The re-raising step at the end of `Handle`'s external branch: after the
recursive defer finishing, re-raise the original payload `p` — unless the
finishing itself panicked, in which case the newer panic propagates and
`panic(r)` is never reached. -/
def reraise (p : ExtPanic) : Option PanicVal × Core → Option PanicVal × Core
  | (some q, e2) => (some q, e2)
  | (none, e2) => (some (.ext p), e2)

/-- `finishDefer` of the source, fuelled.  `finishDefer` runs `doDefers` under
`defer e.Handle()`: if a cleanup action panics, the deferred `Handle` recovers
that (necessarily external) payload, records it (`inPanic`, slot overwrite),
recursively finishes the remaining defers and re-raises — unless that
recursive finish itself panics, in which case the newer panic propagates and
`panic(r)` is never reached.  If `doDefers` returns normally the deferred
`Handle` recovers nil and finds the stack empty, a no-op.  One fuel unit is
spent per recovered panic; each such panic consumed at least the panicking
action's entry, so `e.deferred.length + 1` fuel always suffices. -/
def finishDeferF : Nat → Core → Option PanicVal × Core
  | 0, e => (none, e)
  | fuel+1, e =>
    if e.deferred.length > 0 then
      match doDefers e 0 with
      | (none, e') => (none, e')
      | (some p, e') =>
        reraise p (finishDeferF fuel (writeSlot { e' with inPanic := true } (wrapPanic p)))
    else (none, e)

/-- `finishDefer` with adequate fuel. -/
def finishDefer (e : Core) : Option PanicVal × Core :=
  finishDeferF (e.deferred.length + 1) e

/-- `Handle` of the source, given what `recover()` returned: nil and the
private sentinel both just finish the defers; any other payload sets
`inPanic`, stores the (possibly wrapped) payload through the slot pointer,
finishes the defers and re-raises the original payload — unless finishing the
defers itself panics, in which case that panic propagates instead. -/
def Handle : Core → Option PanicVal → Option PanicVal × Core
  | e, none => finishDefer e
  | e, some .ourPanic => finishDefer e
  | e, some (.ext p) =>
    reraise p (finishDefer (writeSlot { e with inPanic := true } (wrapPanic p)))

/-- Modelled from the spec: the repository's `Defer` registration method and
the construction of `deferData` entries are not among the provided sources
(only `doDefers`/`processDeferError`, their consumers, are).  Spec §4.2:
"given an action and an argument, plus optional per-entry handlers, push an
entry onto `pendingCleanups`.  If per-entry handlers are supplied, push them
first as a marker entry (action = none)".  The markers are pushed so that the
flush, which reads them top-down (`processDeferError`), applies them in the
order given, as §4.3 requires handlers of a chain to apply in order. -/
def Defer (e : Core) (f : DeferAction) (x : Nat) (h : List Handler) : Core :=
  { e with deferred := DeferData.action f x :: (h.map DeferData.marker) ++ e.deferred }

/-- One step of client code between `Catch` and the deferred `Handle`:
a `Must` check, a `Defer` registration, or an external panic. -/
inductive Step where
  | must (err : Option GoError) (h : List Handler)
  | deferOp (f : DeferAction) (x : Nat) (h : List Handler)
  | panicStep (p : ExtPanic)

/-- Execute one step. -/
def runStep (e : Core) : Step → Option PanicVal × Core
  | .must err h => Must e err h
  | .deferOp f x h => (none, Defer e f x h)
  | .panicStep p => (some (.ext p), e)

/-- Execute steps in order; a panic skips the remaining steps (the client
function unwinds). -/
def runSteps : List Step → Core → Option PanicVal × Core
  | [], e => (none, e)
  | s :: ss, e =>
    match runStep e s with
    | (some p, e') => (some p, e')
    | (none, e') => runSteps ss e'

/-- A whole funnel lifetime: `e := Catch(&err, dh...)`, the client steps, and
the deferred `e.Handle()` recovering whatever panic is in flight. -/
def runFunnel (err0 : Option GoError) (dh : List Handler) (steps : List Step) :
    Option PanicVal × Core :=
  let e := Catch err0 dh
  let (r, e') := runSteps steps e
  Handle e' r

/-- A deferred-stack entry whose invocation cannot panic (markers never run;
an action must return `ok` on its own argument in every state). -/
def OkEntry : DeferData → Prop
  | .marker _ => True
  | .action f x => ∀ s, ∃ r, f s x = Except.ok r

/-- `true` iff the stack does not start with a marker entry — the shape the
top of the stack has after a completed registration (spec §9: a marker is
always directly covered by the action it governs). -/
def noMarkerTop : List DeferData → Bool
  | [] => true
  | d :: _ => !d.isMarker

/-- A step that triggers no external fault: any `Must`, a `Defer` of an action
that cannot panic, and no raw panic. -/
def StepOk : Step → Prop
  | .must _ _ => True
  | .deferOp f x _ => ∀ s, ∃ r, f s x = Except.ok r
  | .panicStep _ => False

/-- The slot has been written at most once, and exactly when an error is
resolved (for a funnel whose slot started out nil). -/
def SlotInv (e : Core) : Prop :=
  (e.writeLog = [] ∧ e.err = none) ∨ ∃ v, e.writeLog = [v] ∧ e.err = some v

/-- Every pending entry is panic-free. -/
def DefersOk (e : Core) : Prop := ∀ d ∈ e.deferred, OkEntry d

/-- A cleanup action that succeeds and returns nil. -/
def retNone : DeferAction := fun _ _ => Except.ok none

/-- A cleanup action that panics with a non-error payload `n`. -/
def panicWith (n : Nat) : DeferAction := fun _ _ => Except.error (ExtPanic.other n)

/-- A handler that passes the error through unchanged. -/
def keepHandler : Handler := fun _ err => some err

/-- A handler that replaces any error with `tag n`. -/
def replaceWith (n : Nat) : Handler := fun _ _ => some (GoError.tag n)

/-! ### Basic lemmas -/

theorem writeSlot_deferred (e : Core) (v : GoError) :
    (writeSlot e v).deferred = e.deferred := rfl

theorem writeSlot_calls (e : Core) (v : GoError) :
    (writeSlot e v).calls = e.calls := rfl

theorem actionIds_append (l₁ l₂ : List DeferData) :
    actionIds (l₁ ++ l₂) = actionIds l₁ ++ actionIds l₂ :=
  List.filterMap_append l₁ l₂ _

theorem actionIds_markers (hs : List Handler) :
    actionIds (hs.map DeferData.marker) = [] := by
  induction hs with
  | nil => rfl
  | cons h t ih => simp_all [actionIds, DeferData.actionId]

/-- `processDeferError` either leaves the state untouched or, only when the
slot is still nil, performs a single slot store. -/
theorem processDeferError_eq_or (e : Core) (err : GoError) :
    processDeferError e err = e ∨
      (e.err = none ∧ ∃ v, processDeferError e err = writeSlot e v) := by
  unfold processDeferError
  split
  · exact Or.inl rfl
  · split
    · exact Or.inl rfl
    · split
      · rename_i h
        exact Or.inr ⟨Option.isNone_iff_eq_none.mp h, _, rfl⟩
      · exact Or.inl rfl

theorem processDeferError_deferred (e : Core) (err : GoError) :
    (processDeferError e err).deferred = e.deferred := by
  rcases processDeferError_eq_or e err with h | ⟨_, v, h⟩
  · rw [h]
  · rw [h]; rfl

theorem processDeferError_calls (e : Core) (err : GoError) :
    (processDeferError e err).calls = e.calls := by
  rcases processDeferError_eq_or e err with h | ⟨_, v, h⟩
  · rw [h]
  · rw [h]; rfl

theorem processDeferError_defaultHandlers (e : Core) (err : GoError) :
    (processDeferError e err).defaultHandlers = e.defaultHandlers := by
  rcases processDeferError_eq_or e err with h | ⟨_, v, h⟩
  · rw [h]
  · rw [h]; rfl

theorem processDeferError_inPanic (e : Core) (err : GoError) :
    (processDeferError e err).inPanic = e.inPanic := by
  rcases processDeferError_eq_or e err with h | ⟨_, v, h⟩
  · rw [h]
  · rw [h]; rfl

/-- A failed cleanup never disturbs an already-resolved error, nor stores
anything through the slot pointer. -/
theorem processDeferError_of_some (e : Core) (err : GoError) (v : GoError)
    (h : e.err = some v) : processDeferError e err = e := by
  rcases processDeferError_eq_or e err with h' | ⟨hn, _, _⟩
  · exact h'
  · rw [hn] at h; exact absurd h (by simp)

/-! ### The flush loop -/

/-- Flushing never disturbs an already-resolved error and performs no slot
store while one is resolved. -/
theorem doDefersGo_err_some :
    ∀ (ds : List DeferData) (e : Core) (v : GoError), e.err = some v →
      (doDefersGo 0 ds e).2.err = some v ∧
        (doDefersGo 0 ds e).2.writeLog = e.writeLog := by
  intro ds
  induction ds with
  | nil => intro e v h; exact ⟨h, rfl⟩
  | cons d rest ih =>
    intro e v h
    cases d with
    | marker hh =>
      unfold doDefersGo
      rw [if_pos (show rest.length + 1 > 0 from Nat.succ_pos _)]
      exact ih _ v h
    | action f x =>
      unfold doDefersGo
      rw [if_pos (show rest.length + 1 > 0 from Nat.succ_pos _)]
      cases hfx : f (stateView { e with deferred := rest, calls := e.calls ++ [x] }) x with
      | error p => exact ⟨h, rfl⟩
      | ok r =>
        cases r with
        | none => exact ih _ v h
        | some err =>
          have hpe :=
            processDeferError_of_some { e with deferred := rest, calls := e.calls ++ [x] } err v h
          have hred := ih (processDeferError { e with deferred := rest, calls := e.calls ++ [x] } err)
            v (by rw [hpe]; exact h)
          refine ⟨hred.1, ?_⟩
          show (doDefersGo 0 rest
              (processDeferError { e with deferred := rest, calls := e.calls ++ [x] } err)).2.writeLog
            = e.writeLog
          rw [hred.2, hpe]

/-- The main flush lemma: flushing with barrier 0 splits the stack into a
processed prefix `l₁` and an untouched suffix `l₂` (left only by a panic);
the invocation log extends by exactly the ids of `l₁`, in stack order. -/
theorem doDefersGo_zero_spec :
    ∀ (ds : List DeferData) (e : Core), e.deferred = ds →
      ∃ l₁ l₂, ds = l₁ ++ l₂ ∧
        (doDefersGo 0 ds e).2.deferred = l₂ ∧
        (doDefersGo 0 ds e).2.calls = e.calls ++ actionIds l₁ ∧
        (doDefersGo 0 ds e).2.defaultHandlers = e.defaultHandlers ∧
        (doDefersGo 0 ds e).2.inPanic = e.inPanic ∧
        ((doDefersGo 0 ds e).1 = none → l₂ = []) ∧
        ((doDefersGo 0 ds e).1 ≠ none → l₁ ≠ []) := by
  intro ds
  induction ds with
  | nil =>
    intro e he
    exact ⟨[], [], rfl, he, by simp [doDefersGo, actionIds], rfl, rfl, fun _ => rfl, by simp [doDefersGo]⟩
  | cons d rest ih =>
    intro e he
    cases d with
    | marker hh =>
      unfold doDefersGo
      rw [if_pos (show rest.length + 1 > 0 from Nat.succ_pos _)]
      obtain ⟨l₁, l₂, hsplit, h1, h2, h3, h4, h5, h6⟩ := ih { e with deferred := rest } rfl
      exact ⟨.marker hh :: l₁, l₂, by simp [hsplit], h1,
        by simpa [actionIds, DeferData.actionId] using h2, h3, h4, h5,
        fun _ => List.cons_ne_nil _ _⟩
    | action f x =>
      unfold doDefersGo
      rw [if_pos (show rest.length + 1 > 0 from Nat.succ_pos _)]
      cases hfx : f (stateView { e with deferred := rest, calls := e.calls ++ [x] }) x with
      | error p =>
        exact ⟨[.action f x], rest, rfl, rfl,
          (by simp [actionIds, DeferData.actionId] :
            e.calls ++ [x] = e.calls ++ actionIds [DeferData.action f x]), rfl, rfl,
          fun hc => Option.noConfusion hc, fun _ => List.cons_ne_nil _ _⟩
      | ok r =>
        cases r with
        | none =>
          obtain ⟨l₁, l₂, hsplit, h1, h2, h3, h4, h5, h6⟩ :=
            ih { e with deferred := rest, calls := e.calls ++ [x] } rfl
          exact ⟨.action f x :: l₁, l₂, by simp [hsplit], h1,
            h2.trans (by simp [actionIds, DeferData.actionId]), h3, h4, h5,
            fun _ => List.cons_ne_nil _ _⟩
        | some err =>
          obtain ⟨l₁, l₂, hsplit, h1, h2, h3, h4, h5, h6⟩ :=
            ih (processDeferError { e with deferred := rest, calls := e.calls ++ [x] } err)
              (processDeferError_deferred _ _)
          exact ⟨.action f x :: l₁, l₂, by simp [hsplit], h1,
            h2.trans (by rw [processDeferError_calls]; simp [actionIds, DeferData.actionId]),
            h3.trans (processDeferError_defaultHandlers _ _),
            h4.trans (processDeferError_inPanic _ _), h5,
            fun _ => List.cons_ne_nil _ _⟩

/-- A flush over a stack of panic-free entries never panics. -/
theorem doDefersGo_ok :
    ∀ (ds : List DeferData) (e : Core), (∀ d ∈ ds, OkEntry d) →
      (doDefersGo 0 ds e).1 = none := by
  intro ds
  induction ds with
  | nil => intro e _; rfl
  | cons d rest ih =>
    intro e hok
    cases d with
    | marker hh =>
      unfold doDefersGo
      rw [if_pos (show rest.length + 1 > 0 from Nat.succ_pos _)]
      exact ih _ (fun d hd => hok d (List.mem_cons_of_mem _ hd))
    | action f x =>
      unfold doDefersGo
      rw [if_pos (show rest.length + 1 > 0 from Nat.succ_pos _)]
      cases hfx : f (stateView { e with deferred := rest, calls := e.calls ++ [x] }) x with
      | error p =>
        obtain ⟨r, hr⟩ := hok (.action f x) (List.mem_cons_self _ _)
          (stateView { e with deferred := rest, calls := e.calls ++ [x] })
        rw [hfx] at hr
        exact absurd hr (by simp)
      | ok r =>
        cases r with
        | none => exact ih _ (fun d hd => hok d (List.mem_cons_of_mem _ hd))
        | some err => exact ih _ (fun d hd => hok d (List.mem_cons_of_mem _ hd))

/-! ### Finalize -/

theorem finishDeferF_succ_stop (fuel : Nat) (e : Core)
    (hpos : ¬ e.deferred.length > 0) : finishDeferF (fuel + 1) e = (none, e) := by
  unfold finishDeferF
  rw [if_neg hpos]

theorem finishDeferF_succ_none (fuel : Nat) (e e' : Core)
    (hpos : e.deferred.length > 0) (hdo : doDefers e 0 = (none, e')) :
    finishDeferF (fuel + 1) e = (none, e') := by
  unfold finishDeferF
  rw [if_pos hpos, hdo]

theorem reraise_some (p : ExtPanic) (q : PanicVal) (e2 : Core) :
    reraise p (some q, e2) = (some q, e2) := rfl

theorem reraise_none (p : ExtPanic) (e2 : Core) :
    reraise p (none, e2) = (some (PanicVal.ext p), e2) := rfl

theorem finishDeferF_succ_panic (fuel : Nat) (e e' : Core) (p : ExtPanic)
    (hpos : e.deferred.length > 0) (hdo : doDefers e 0 = (some p, e')) :
    finishDeferF (fuel + 1) e =
      reraise p (finishDeferF fuel (writeSlot { e' with inPanic := true } (wrapPanic p))) := by
  conv_lhs => rw [finishDeferF]
  rw [if_pos hpos, hdo]

/-- With adequate fuel, finalize empties the stack, invokes every pending
action exactly once in stack order, and never lets the sentinel escape. -/
theorem finishDeferF_spec :
    ∀ (fuel : Nat) (e : Core), e.deferred.length < fuel →
      (finishDeferF fuel e).2.deferred = [] ∧
      (finishDeferF fuel e).2.calls = e.calls ++ actionIds e.deferred ∧
      (finishDeferF fuel e).1 ≠ some PanicVal.ourPanic := by
  intro fuel
  induction fuel with
  | zero => intro e h; exact absurd h (Nat.not_lt_zero _)
  | succ fuel ih =>
    intro e hlen
    by_cases hpos : e.deferred.length > 0
    · obtain ⟨l₁, l₂, hsplit, h1, h2, h3, h4, h5, h6⟩ := doDefersGo_zero_spec e.deferred e rfl
      cases hdo : doDefers e 0 with
      | mk p e' =>
        have hdo' : doDefersGo 0 e.deferred e = (p, e') := hdo
        rw [hdo'] at h1 h2 h5 h6
        cases p with
        | none =>
          have h1' : e'.deferred = l₂ := h1
          have h2' : e'.calls = e.calls ++ actionIds l₁ := h2
          have hl2 : l₂ = [] := h5 rfl
          have hl1 : l₁ = e.deferred := by
            rw [hl2, List.append_nil] at hsplit; exact hsplit.symm
          rw [finishDeferF_succ_none fuel e e' hpos hdo]
          exact ⟨by rw [h1', hl2], by rw [h2', hl1], by simp⟩
        | some p =>
          have h1' : e'.deferred = l₂ := h1
          have h2' : e'.calls = e.calls ++ actionIds l₁ := h2
          have hne : l₁ ≠ [] := h6 (by simp)
          have hlt : l₂.length < fuel := by
            have hlena : e.deferred.length = l₁.length + l₂.length := by
              rw [hsplit, List.length_append]
            have hpos1 : 0 < l₁.length := List.length_pos.mpr hne
            omega
          rw [finishDeferF_succ_panic fuel e e' p hpos hdo]
          obtain ⟨i1, i2, i3⟩ := ih (writeSlot { e' with inPanic := true } (wrapPanic p))
            (show e'.deferred.length < fuel by rw [h1']; exact hlt)
          cases hfin : finishDeferF fuel (writeSlot { e' with inPanic := true } (wrapPanic p)) with
          | mk q e2 =>
            rw [hfin] at i1 i2 i3
            have i1' : e2.deferred = [] := i1
            have i2' : e2.calls = e'.calls ++ actionIds e'.deferred := i2
            have hcalls : e2.calls = e.calls ++ actionIds e.deferred := by
              rw [i2', h1', h2', hsplit, actionIds_append, List.append_assoc]
            cases q with
            | none => rw [reraise_none]; exact ⟨i1', hcalls, by simp⟩
            | some q' => rw [reraise_some]; exact ⟨i1', hcalls, i3⟩
    · rw [finishDeferF_succ_stop fuel e hpos]
      have hd : e.deferred = [] := by
        rw [← List.length_eq_zero]; omega
      exact ⟨hd, by rw [hd]; simp [actionIds], by simp⟩

/-- Finalize never changes a resolved error back to nil. -/
theorem finishDeferF_err_isSome :
    ∀ (fuel : Nat) (e : Core) (v : GoError), e.err = some v →
      (finishDeferF fuel e).2.err.isSome = true := by
  intro fuel
  induction fuel with
  | zero => intro e v h; simp [finishDeferF, h]
  | succ fuel ih =>
    intro e v h
    by_cases hpos : e.deferred.length > 0
    · have hsome := doDefersGo_err_some e.deferred e v h
      cases hdo : doDefers e 0 with
      | mk p e' =>
        have hdo' : doDefersGo 0 e.deferred e = (p, e') := hdo
        rw [hdo'] at hsome
        have he' : e'.err = some v := hsome.1
        cases p with
        | none =>
          rw [finishDeferF_succ_none fuel e e' hpos hdo]
          simp [he']
        | some p =>
          rw [finishDeferF_succ_panic fuel e e' p hpos hdo]
          have hE1 : (writeSlot { e' with inPanic := true } (wrapPanic p)).err
              = some (wrapPanic p) := rfl
          have hrec := ih (writeSlot { e' with inPanic := true } (wrapPanic p)) (wrapPanic p) hE1
          cases hfin : finishDeferF fuel (writeSlot { e' with inPanic := true } (wrapPanic p)) with
          | mk q e2 =>
            rw [hfin] at hrec
            cases q with
            | none => rw [reraise_none]; exact hrec
            | some q' => rw [reraise_some]; exact hrec
    · rw [finishDeferF_succ_stop fuel e hpos]
      simp [h]

/-- `finishDefer`'s fuel is always adequate. -/
theorem finishDefer_spec (e : Core) :
    (finishDefer e).2.deferred = [] ∧
    (finishDefer e).2.calls = e.calls ++ actionIds e.deferred ∧
    (finishDefer e).1 ≠ some PanicVal.ourPanic :=
  finishDeferF_spec (e.deferred.length + 1) e (Nat.lt_succ_self _)

/-- If no pending action can panic, `finishDefer` returns normally and is a
single plain flush round. -/
theorem finishDefer_ok (e : Core) (hok : ∀ d ∈ e.deferred, OkEntry d) :
    (finishDefer e).1 = none ∧ (finishDefer e).2 = (doDefers e 0).2 := by
  unfold finishDefer finishDeferF
  by_cases hpos : e.deferred.length > 0
  · rw [if_pos hpos]
    unfold doDefers
    have hnone := doDefersGo_ok e.deferred e hok
    cases hdo : doDefersGo 0 e.deferred e with
    | mk p e' =>
      rw [hdo] at hnone
      simp only at hnone
      subst hnone
      exact ⟨rfl, rfl⟩
  · rw [if_neg hpos]
    have hd : e.deferred = [] := by rw [← List.length_eq_zero]; omega
    unfold doDefers
    rw [hd]
    exact ⟨rfl, rfl⟩

end Errc

namespace Errc

theorem reraise_snd (p : ExtPanic) (pr : Option PanicVal × Core) :
    (reraise p pr).2 = pr.2 := by
  rcases pr with ⟨q, e2⟩
  cases q <;> rfl

theorem reraise_fst (p : ExtPanic) (pr : Option PanicVal × Core)
    (h : pr.1 ≠ some PanicVal.ourPanic) : (reraise p pr).1 ≠ some PanicVal.ourPanic := by
  rcases pr with ⟨q, e2⟩
  cases q with
  | none => simp [reraise]
  | some q' => simpa [reraise] using h

theorem Handle_none (e : Core) : Handle e none = finishDefer e := rfl

theorem Handle_our (e : Core) : Handle e (some PanicVal.ourPanic) = finishDefer e := rfl

theorem Handle_ext (e : Core) (p : ExtPanic) :
    Handle e (some (PanicVal.ext p)) =
      reraise p (finishDefer (writeSlot { e with inPanic := true } (wrapPanic p))) := rfl

/-- Whatever `Handle` recovers, it flushes the whole remaining stack, invoking
every pending action exactly once in stack order, and never re-raises the
private sentinel. -/
theorem Handle_spec (e : Core) (r : Option PanicVal) :
    (Handle e r).2.calls = e.calls ++ actionIds e.deferred ∧
    (Handle e r).2.deferred = [] ∧
    (Handle e r).1 ≠ some PanicVal.ourPanic := by
  cases r with
  | none =>
    obtain ⟨d, c, np⟩ := finishDefer_spec e
    rw [Handle_none]
    exact ⟨c, d, np⟩
  | some pv =>
    cases pv with
    | ourPanic =>
      obtain ⟨d, c, np⟩ := finishDefer_spec e
      rw [Handle_our]
      exact ⟨c, d, np⟩
    | ext p =>
      obtain ⟨d, c, np⟩ := finishDefer_spec (writeSlot { e with inPanic := true } (wrapPanic p))
      rw [Handle_ext, reraise_snd]
      refine ⟨?_, d, reraise_fst _ _ np⟩
      rw [c]
      rfl

end Errc

namespace Errc

/-! ### Detection -/

theorem bail_snd (e : Core) : (bail e).2 = (doDefers e 0).2 := by
  unfold bail
  cases hdo : doDefers e 0 with
  | mk p e' => cases p <;> rfl

theorem bail_ok (e : Core) (h : (doDefers e 0).1 = none) :
    bail e = (some PanicVal.ourPanic, (doDefers e 0).2) := by
  unfold bail
  cases hdo : doDefers e 0 with
  | mk p e' =>
    rw [hdo] at h
    simp only at h
    subst h
    rfl

/-- A detection never disturbs an already-resolved error, nor stores anything
through the slot pointer while one is resolved. -/
theorem processError_err_some (e : Core) (err : GoError) (hs : List Handler)
    (v : GoError) (h : e.err = some v) :
    (processError e err hs).2.err = some v ∧
      (processError e err hs).2.writeLog = e.writeLog := by
  have hkey : ∀ err2 : GoError,
      ((bail (if e.err.isNone then writeSlot e err2 else e)).2.err = some v ∧
        (bail (if e.err.isNone then writeSlot e err2 else e)).2.writeLog = e.writeLog) := by
    intro err2
    rw [show e.err.isNone = false by simp [h], if_neg (by simp), bail_snd]
    exact doDefersGo_err_some e.deferred e v h
  cases hs with
  | nil =>
    simp only [processError]
    cases hc : applyChain (stateView e) e.defaultHandlers err with
    | none => exact ⟨h, rfl⟩
    | some err2 => exact hkey err2
  | cons h0 hs =>
    simp only [processError]
    cases hc : applyChain (stateView e) (h0 :: hs) err with
    | none => exact ⟨h, rfl⟩
    | some err2 => exact hkey err2

/-- An absorbed detection (the effective chain yields nil) is a complete
no-op: no state change, no flush, no panic. -/
theorem processError_absorbed (e : Core) (err : GoError) (hs : List Handler)
    (h : applyChain (stateView e)
        (if hs.isEmpty then e.defaultHandlers else hs) err = none) :
    processError e err hs = (none, e) := by
  cases hs with
  | nil =>
    simp only [List.isEmpty_nil, if_true] at h
    simp only [processError]
    rw [h]
  | cons h0 hs =>
    simp at h
    simp only [processError]
    rw [h]

end Errc

namespace Errc

/-! ### Marker scanning -/

/-- After the action entry of a registration is popped, the scan sees exactly
the markers of that registration (in order): it stops at the next action
entry, so markers of older registrations are never picked up. -/
theorem markerHandlers_push (hs : List Handler) (rest : List DeferData)
    (hr : noMarkerTop rest = true) :
    markerHandlers (hs.map DeferData.marker ++ rest) = hs := by
  induction hs with
  | nil =>
    cases rest with
    | nil => rfl
    | cons d t =>
      cases d with
      | marker hh => simp [noMarkerTop, DeferData.isMarker] at hr
      | action f x => simp [markerHandlers, DeferData.isMarker]
  | cons h0 t ih =>
    simp only [List.map_cons, List.cons_append, markerHandlers,
      List.takeWhile_cons, DeferData.isMarker, if_true, List.filterMap_cons,
      DeferData.markerHandler]
    exact congrArg (List.cons h0) ih

/-- `processDeferError` when the popped action has its own markers: the error
is resolved through them alone. -/
theorem processDeferError_with_markers (e : Core) (err : GoError)
    (hm : markerHandlers e.deferred ≠ []) :
    (processDeferError e err).err =
      (match applyChain (stateView e) (markerHandlers e.deferred) err with
       | none => e.err
       | some err1 => if e.err.isNone then some err1 else e.err) := by
  unfold processDeferError
  cases hc : applyChain (stateView e) (markerHandlers e.deferred) err with
  | none => rfl
  | some err1 =>
    rw [show (markerHandlers e.deferred).isEmpty = false by
      simpa [List.isEmpty_iff] using hm]
    simp only [Bool.false_eq_true, if_false]
    by_cases hn : e.err.isNone = true
    · rw [if_pos hn, if_pos hn]; rfl
    · rw [if_neg hn, if_neg hn]

/-- `processDeferError` when the popped action has no markers: the error falls
back to the funnel's default chain. -/
theorem processDeferError_no_markers (e : Core) (err : GoError)
    (hm : markerHandlers e.deferred = []) (hn : e.err = none) :
    (processDeferError e err).err = applyChain (stateView e) e.defaultHandlers err := by
  unfold processDeferError
  rw [hm]
  show (match (if (List.isEmpty ([] : List Handler)) then
      applyChain (stateView e) e.defaultHandlers err else some err) with
    | none => e
    | some err2 => if e.err.isNone then writeSlot e err2 else e).err
    = applyChain (stateView e) e.defaultHandlers err
  rw [show (List.isEmpty ([] : List Handler)) = true from rfl, if_pos rfl]
  cases hc : applyChain (stateView e) e.defaultHandlers err with
  | none => exact hn
  | some err2 =>
    show (if e.err.isNone then writeSlot e err2 else e).err = some err2
    rw [if_pos (by simp [hn])]
    rfl

/-- With markers present, the resolution of a failed cleanup is independent of
the funnel's default chain. -/
theorem processDeferError_defaults_irrelevant (e : Core) (err : GoError)
    (dh dh' : List Handler) (hm : markerHandlers e.deferred ≠ []) :
    (processDeferError { e with defaultHandlers := dh } err).err =
      (processDeferError { e with defaultHandlers := dh' } err).err :=
  (processDeferError_with_markers { e with defaultHandlers := dh } err hm).trans
    (processDeferError_with_markers { e with defaultHandlers := dh' } err hm).symm

end Errc

namespace Errc

/-! ### Run-level invariants -/

theorem slotInv_writeSlot (e : Core) (v : GoError)
    (h : e.writeLog = [] ∧ e.err = none) : SlotInv (writeSlot e v) :=
  Or.inr ⟨v, by simp [writeSlot, h.1], rfl⟩

theorem slotInv_processDeferError (e : Core) (err : GoError) (hi : SlotInv e) :
    SlotInv (processDeferError e err) := by
  rcases processDeferError_eq_or e err with h | ⟨hn, v, h⟩
  · rw [h]; exact hi
  · rw [h]
    rcases hi with ⟨hl, _⟩ | ⟨w, _, hw⟩
    · exact slotInv_writeSlot e v ⟨hl, hn⟩
    · rw [hn] at hw; exact absurd hw (by simp)

theorem slotInv_doDefersGo :
    ∀ (ds : List DeferData) (e : Core), SlotInv e → SlotInv (doDefersGo 0 ds e).2 := by
  intro ds
  induction ds with
  | nil => intro e hi; exact hi
  | cons d rest ih =>
    intro e hi
    cases d with
    | marker hh =>
      unfold doDefersGo
      rw [if_pos (show rest.length + 1 > 0 from Nat.succ_pos _)]
      exact ih _ hi
    | action f x =>
      unfold doDefersGo
      rw [if_pos (show rest.length + 1 > 0 from Nat.succ_pos _)]
      cases hfx : f (stateView { e with deferred := rest, calls := e.calls ++ [x] }) x with
      | error p => exact hi
      | ok r =>
        cases r with
        | none => exact ih _ hi
        | some err =>
          exact ih _ (slotInv_processDeferError
            { e with deferred := rest, calls := e.calls ++ [x] } err hi)

/-- Under panic-free entries and from an at-most-once-written slot, a
detection keeps the slot written at most once, keeps the pending entries
panic-free, and can only raise the private sentinel. -/
theorem processError_ok (e : Core) (err : GoError) (hs : List Handler)
    (hi : SlotInv e) (hd : DefersOk e) :
    SlotInv (processError e err hs).2 ∧ DefersOk (processError e err hs).2 ∧
      ∀ p, (processError e err hs).1 ≠ some (PanicVal.ext p) := by
  have hkey : ∀ err2 : GoError,
      SlotInv (bail (if e.err.isNone then writeSlot e err2 else e)).2 ∧
      DefersOk (bail (if e.err.isNone then writeSlot e err2 else e)).2 ∧
      ∀ p, (bail (if e.err.isNone then writeSlot e err2 else e)).1
        ≠ some (PanicVal.ext p) := by
    intro err2
    set e1 := if e.err.isNone then writeSlot e err2 else e with he1
    have hi1 : SlotInv e1 := by
      rw [he1]
      by_cases hn : e.err.isNone = true
      · rw [if_pos hn]
        rcases hi with ⟨hl, hn'⟩ | ⟨w, _, hw⟩
        · exact slotInv_writeSlot e err2 ⟨hl, hn'⟩
        · rw [Option.isNone_iff_eq_none.mp hn] at hw; exact absurd hw (by simp)
      · rw [if_neg hn]; exact hi
    have hd1 : DefersOk e1 := by
      rw [he1]
      by_cases hn : e.err.isNone = true
      · rw [if_pos hn]; exact hd
      · rw [if_neg hn]; exact hd
    have hnop : (doDefers e1 0).1 = none := doDefersGo_ok e1.deferred e1 hd1
    rw [bail_ok e1 hnop]
    refine ⟨slotInv_doDefersGo e1.deferred e1 hi1, ?_, by simp⟩
    obtain ⟨l₁, l₂, hsplit, h1, -, -, -, -, -⟩ := doDefersGo_zero_spec e1.deferred e1 rfl
    intro d hd'
    rw [show (doDefers e1 0).2.deferred = l₂ from h1] at hd'
    exact hd1 d (by rw [hsplit]; exact List.mem_append_right _ hd')
  cases hs with
  | nil =>
    simp only [processError]
    cases hc : applyChain (stateView e) e.defaultHandlers err with
    | none => exact ⟨hi, hd, by simp⟩
    | some err2 => exact hkey err2
  | cons h0 hs =>
    simp only [processError]
    cases hc : applyChain (stateView e) (h0 :: hs) err with
    | none => exact ⟨hi, hd, by simp⟩
    | some err2 => exact hkey err2

/-- Invariant preservation over a panic-free client step sequence. -/
theorem runSteps_inv :
    ∀ (steps : List Step) (e : Core), (∀ st ∈ steps, StepOk st) →
      SlotInv e → DefersOk e →
      SlotInv (runSteps steps e).2 ∧ DefersOk (runSteps steps e).2 ∧
        ∀ p, (runSteps steps e).1 ≠ some (PanicVal.ext p) := by
  intro steps
  induction steps with
  | nil => intro e _ hi hd; exact ⟨hi, hd, by simp [runSteps]⟩
  | cons st ss ih =>
    intro e hok hi hd
    have hst := hok st (List.mem_cons_self _ _)
    have hss := fun s hs => hok s (List.mem_cons_of_mem _ hs)
    cases st with
    | must err h =>
      cases err with
      | none =>
        simp only [runSteps, runStep, Must]
        exact ih e hss hi hd
      | some err =>
        obtain ⟨p1, p2, p3⟩ := processError_ok e err h hi hd
        simp only [runSteps, runStep, Must]
        cases hpr : processError e err h with
        | mk q e' =>
          rw [hpr] at p1 p2 p3
          cases q with
          | none => exact ih e' hss p1 p2
          | some pv =>
            cases pv with
            | ourPanic => exact ⟨p1, p2, by simp⟩
            | ext p => exact absurd rfl (p3 p)
    | deferOp f x h =>
      simp only [runSteps, runStep]
      refine ih _ hss hi ?_
      intro d hd'
      simp only [Defer, List.mem_cons, List.mem_append] at hd'
      rcases hd' with (rfl | hd') | hd'
      · exact hst
      · obtain ⟨hh, -, rfl⟩ := List.mem_map.mp hd'
        trivial
      · exact hd d hd'
    | panicStep p => exact absurd hst (by simp [StepOk])

end Errc

namespace Errc

/-! ### Further support lemmas -/

theorem doDefersGo_writeLog_mono :
    ∀ (ds : List DeferData) (e : Core),
      ∃ t, (doDefersGo 0 ds e).2.writeLog = e.writeLog ++ t := by
  intro ds
  induction ds with
  | nil => intro e; exact ⟨[], by simp [doDefersGo]⟩
  | cons d rest ih =>
    intro e
    cases d with
    | marker hh =>
      unfold doDefersGo
      rw [if_pos (show rest.length + 1 > 0 from Nat.succ_pos _)]
      exact ih _
    | action f x =>
      unfold doDefersGo
      rw [if_pos (show rest.length + 1 > 0 from Nat.succ_pos _)]
      cases hfx : f (stateView { e with deferred := rest, calls := e.calls ++ [x] }) x with
      | error p => exact ⟨[], by simp⟩
      | ok r =>
        cases r with
        | none => exact ih _
        | some err =>
          obtain ⟨t, ht⟩ := ih (processDeferError { e with deferred := rest, calls := e.calls ++ [x] } err)
          show ∃ t, (doDefersGo 0 rest
            (processDeferError { e with deferred := rest, calls := e.calls ++ [x] } err)).2.writeLog
            = e.writeLog ++ t
          rcases processDeferError_eq_or { e with deferred := rest, calls := e.calls ++ [x] } err
            with hpe | ⟨-, v, hpe⟩
          · rw [hpe] at ht ⊢; exact ⟨t, ht⟩
          · rw [hpe] at ht ⊢
            exact ⟨v :: t, by rw [ht]; simp [writeSlot]⟩

theorem finishDeferF_writeLog_mono :
    ∀ (fuel : Nat) (e : Core),
      ∃ t, (finishDeferF fuel e).2.writeLog = e.writeLog ++ t := by
  intro fuel
  induction fuel with
  | zero => intro e; exact ⟨[], by simp [finishDeferF]⟩
  | succ fuel ih =>
    intro e
    by_cases hpos : e.deferred.length > 0
    · obtain ⟨t1, ht1⟩ := doDefersGo_writeLog_mono e.deferred e
      cases hdo : doDefers e 0 with
      | mk p e' =>
        have ht1' : e'.writeLog = e.writeLog ++ t1 := by
          rw [show doDefersGo 0 e.deferred e = (p, e') from hdo] at ht1; exact ht1
        cases p with
        | none => exact ⟨t1, by rw [finishDeferF_succ_none fuel e e' hpos hdo]; exact ht1'⟩
        | some p =>
          obtain ⟨t2, ht2⟩ := ih (writeSlot { e' with inPanic := true } (wrapPanic p))
          rw [finishDeferF_succ_panic fuel e e' p hpos hdo]
          refine ⟨t1 ++ wrapPanic p :: t2, ?_⟩
          rw [reraise_snd, ht2]
          show e'.writeLog ++ [wrapPanic p] ++ t2 = e.writeLog ++ (t1 ++ wrapPanic p :: t2)
          rw [ht1']
          simp
    · exact ⟨[], by rw [finishDeferF_succ_stop fuel e hpos]; simp⟩

theorem finishDeferF_inPanic :
    ∀ (fuel : Nat) (e : Core), e.inPanic = true →
      (finishDeferF fuel e).2.inPanic = true := by
  intro fuel
  induction fuel with
  | zero => intro e h; exact h
  | succ fuel ih =>
    intro e h
    by_cases hpos : e.deferred.length > 0
    · obtain ⟨-, -, -, -, -, -, h4, -, -⟩ := doDefersGo_zero_spec e.deferred e rfl
      cases hdo : doDefers e 0 with
      | mk p e' =>
        have h4' : e'.inPanic = e.inPanic := by
          rw [show doDefersGo 0 e.deferred e = (p, e') from hdo] at h4; exact h4
        cases p with
        | none =>
          rw [finishDeferF_succ_none fuel e e' hpos hdo]
          rw [h4']; exact h
        | some p =>
          rw [finishDeferF_succ_panic fuel e e' p hpos hdo, reraise_snd]
          exact ih _ rfl
    · rw [finishDeferF_succ_stop fuel e hpos]; exact h

theorem bail_empty (e : Core) (he : e.deferred = []) :
    bail e = (some PanicVal.ourPanic, e) := by
  have h0 : doDefers e 0 = (none, e) := by
    unfold doDefers; rw [he]; rfl
  have := bail_ok e (by rw [h0])
  rw [this, h0]

end Errc

namespace Errc

/-- Unfolding a whole run into its `Handle` call. -/
theorem runFunnel_eq (err0 : Option GoError) (dh : List Handler) (steps : List Step) :
    runFunnel err0 dh steps
      = Handle (runSteps steps (Catch err0 dh)).2 (runSteps steps (Catch err0 dh)).1 := by
  show (match runSteps steps (Catch err0 dh) with | (r, e') => Handle e' r)
    = Handle (runSteps steps (Catch err0 dh)).2 (runSteps steps (Catch err0 dh)).1
  cases hrs : runSteps steps (Catch err0 dh) with
  | mk r e' => rfl

/-- Registration of a panic-free action (and any markers) keeps the pending
stack panic-free. -/
theorem defersOk_Defer (e : Core) (f : DeferAction) (x : Nat) (hs : List Handler)
    (hde : DefersOk e) (hf : OkEntry (DeferData.action f x)) :
    DefersOk (Defer e f x hs) := by
  intro d hd
  simp only [Defer, List.mem_cons, List.mem_append] at hd
  rcases hd with (rfl | hd) | hd
  · exact hf
  · obtain ⟨hh, -, rfl⟩ := List.mem_map.mp hd
    trivial
  · exact hde d hd

/-! ### The claims -/

/-- C1: first-error-wins — once `currentError` (the slot) has been resolved by
a non-fault detection, a later detection that survives its handler chain does
not change it (neither a `Must` detection nor a failed cleanup does, and no
store happens through the slot pointer); in particular require(err1) followed
by require(err2) with no absorbing handlers resolves to err1. -/
theorem C1_first_error_wins (e : Core) (err err' : GoError) (hs : List Handler)
    (v : GoError) (h : e.err = some v) :
    (processError e err hs).2.err = some v ∧
    (processDeferError e err').err = some v ∧
    ∀ e1 e2 : GoError,
      (runFunnel none [] [.must (some e1) [], .must (some e2) []]).2.err = some e1 := by
  refine ⟨(processError_err_some e err hs v h).1, ?_, fun e1 e2 => rfl⟩
  rw [processDeferError_of_some e err' v h]
  exact h

theorem C1_first_error_wins_witness :
    (writeSlot (Catch none []) (GoError.tag 1)).err = some (GoError.tag 1) ∧
    (processError (writeSlot (Catch none []) (GoError.tag 1)) (GoError.tag 2) []).2.err
      = some (GoError.tag 1) ∧
    (runFunnel none [] [.must (some (GoError.tag 1)) [], .must (some (GoError.tag 2)) []]).2.err
      = some (GoError.tag 1) :=
  ⟨rfl,
    (C1_first_error_wins (writeSlot (Catch none []) (GoError.tag 1)) (GoError.tag 2)
      (GoError.tag 3) [] (GoError.tag 1) rfl).1,
    (C1_first_error_wins (writeSlot (Catch none []) (GoError.tag 1)) (GoError.tag 2)
      (GoError.tag 3) [] (GoError.tag 1) rfl).2.2 (GoError.tag 1) (GoError.tag 2)⟩

/-- C3 (counterexample): the claim "the original fault payload is re-raised"
fails when a remaining cleanup itself panics during the external-fault flush:
here finalize intercepts the external payload `errVal (tag 9)` (not the
sentinel), but what is re-raised is the cleanup's own panic `other 5`, and the
resolved error is its wrapped form, not `tag 9`. -/
theorem C3_counterexample :
    (runFunnel none [] [.deferOp (panicWith 5) 1 [],
        .panicStep (.errVal (.tag 9))]).1
      = some (PanicVal.ext (ExtPanic.other 5)) ∧
    some (PanicVal.ext (ExtPanic.other 5))
      ≠ some (PanicVal.ext (ExtPanic.errVal (GoError.tag 9))) ∧
    (runFunnel none [] [.deferOp (panicWith 5) 1 [],
        .panicStep (.errVal (.tag 9))]).2.err
      = some (GoError.panicked 5) :=
  ⟨rfl, by decide, rfl⟩

/-- C3 (amended): when finalize intercepts an external fault payload `p`,
`faultInProgress` is set, the (wrapped, or direct if `p` carries an error)
payload is stored through the slot — overwriting whatever was there — all
remaining cleanups are flushed, and, provided no remaining cleanup itself
panics, the original payload is re-raised; if one does panic, its newer fault
propagates instead (see the counterexample). -/
theorem C3_external_fault (e : Core) (p : ExtPanic) :
    (Handle e (some (PanicVal.ext p))).2.inPanic = true ∧
    (∃ rest, (Handle e (some (PanicVal.ext p))).2.writeLog
      = e.writeLog ++ wrapPanic p :: rest) ∧
    (Handle e (some (PanicVal.ext p))).2.calls = e.calls ++ actionIds e.deferred ∧
    ((∀ d ∈ e.deferred, OkEntry d) →
      (Handle e (some (PanicVal.ext p))).1 = some (PanicVal.ext p)) := by
  refine ⟨?_, ?_, (Handle_spec e (some (.ext p))).1, ?_⟩
  · rw [Handle_ext, reraise_snd]
    exact finishDeferF_inPanic _ _ rfl
  · rw [Handle_ext, reraise_snd]
    obtain ⟨t, ht⟩ := finishDeferF_writeLog_mono
      ((writeSlot { e with inPanic := true } (wrapPanic p)).deferred.length + 1)
      (writeSlot { e with inPanic := true } (wrapPanic p))
    refine ⟨t, ?_⟩
    show (finishDeferF
      ((writeSlot { e with inPanic := true } (wrapPanic p)).deferred.length + 1)
      (writeSlot { e with inPanic := true } (wrapPanic p))).2.writeLog
      = e.writeLog ++ wrapPanic p :: t
    rw [ht]
    show e.writeLog ++ [wrapPanic p] ++ t = e.writeLog ++ wrapPanic p :: t
    simp
  · intro hok
    rw [Handle_ext]
    obtain ⟨hq, -⟩ := finishDefer_ok (writeSlot { e with inPanic := true } (wrapPanic p)) hok
    cases hfin : finishDefer (writeSlot { e with inPanic := true } (wrapPanic p)) with
    | mk q e2 =>
      rw [hfin] at hq
      simp only at hq
      subst hq
      rw [reraise_none]

theorem C3_external_fault_witness :
    (Handle (Defer (Catch none []) retNone 1 [])
        (some (PanicVal.ext (ExtPanic.errVal (GoError.tag 9))))).1
      = some (PanicVal.ext (ExtPanic.errVal (GoError.tag 9))) ∧
    (Handle (Defer (Catch none []) retNone 1 [])
        (some (PanicVal.ext (ExtPanic.errVal (GoError.tag 9))))).2.inPanic = true :=
  ⟨(C3_external_fault (Defer (Catch none []) retNone 1 [])
      (ExtPanic.errVal (GoError.tag 9))).2.2.2
    (by intro d hd
        simp [Defer, Catch] at hd
        subst hd
        exact fun s => ⟨none, rfl⟩),
   (C3_external_fault (Defer (Catch none []) retNone 1 [])
      (ExtPanic.errVal (GoError.tag 9))).1⟩

/-- C4 (counterexample): the output slot (`*e.err`, which in the code is the
same cell as the resolved error) is written during the `Must` detection —
before finalize ever runs — and an external fault raised by a cleanup during
the detection-time flush makes `Handle` write it a second time: two writes
over one lifetime. -/
theorem C4_counterexample :
    (runSteps [.deferOp (panicWith 5) 1 [], .must (some (GoError.tag 1)) []]
        (Catch none [])).2.writeLog = [GoError.tag 1] ∧
    (runFunnel none [] [.deferOp (panicWith 5) 1 [],
        .must (some (GoError.tag 1)) []]).2.writeLog
      = [GoError.tag 1, GoError.panicked 5] ∧
    ¬ ([GoError.tag 1, GoError.panicked 5] : List GoError).length ≤ 1 :=
  ⟨rfl, rfl, by decide⟩

/-- C4 (amended): in a lifetime with no external fault the slot is written at
most once, and that write is guarded by a nil check (a detection or cleanup
failure arriving while an error is already resolved stores nothing); but the
write happens eagerly at detection time — `Must` on a fresh funnel already
stores the resolved error — not at finalize. -/
theorem C4_output_slot (dh : List Handler) (steps : List Step)
    (hok : ∀ st ∈ steps, StepOk st) :
    (runFunnel none dh steps).2.writeLog.length ≤ 1 ∧
    (∀ (e : Core) (err : GoError) (hs : List Handler) (v : GoError),
      e.err = some v → (processError e err hs).2.writeLog = e.writeLog) ∧
    (∀ (e : Core) (err v : GoError),
      e.err = some v → (processDeferError e err).writeLog = e.writeLog) ∧
    (∀ err2 : GoError, (Must (Catch none []) (some err2) []).2.writeLog = [err2]) := by
  refine ⟨?_, fun e err hs v h => (processError_err_some e err hs v h).2,
    fun e err v h => by rw [processDeferError_of_some e err v h],
    fun err2 => rfl⟩
  have hi0 : SlotInv (Catch none dh) := Or.inl ⟨rfl, rfl⟩
  have hd0 : DefersOk (Catch none dh) := by
    intro d hd; simp [Catch] at hd
  obtain ⟨hi, hd, hnp⟩ := runSteps_inv steps (Catch none dh) hok hi0 hd0
  rw [runFunnel_eq]
  cases hrs : runSteps steps (Catch none dh) with
  | mk r e' =>
    rw [hrs] at hi hd hnp
    show (Handle e' r).2.writeLog.length ≤ 1
    have hr : Handle e' r = finishDefer e' := by
      cases r with
      | none => exact Handle_none e'
      | some pv =>
        cases pv with
        | ourPanic => exact Handle_our e'
        | ext p => exact absurd rfl (hnp p)
    rw [hr]
    obtain ⟨-, hfs⟩ := finishDefer_ok e' hd
    rw [hfs]
    have hsl : SlotInv (doDefers e' 0).2 := slotInv_doDefersGo e'.deferred e' hi
    rcases hsl with ⟨hl, -⟩ | ⟨v, hl, -⟩ <;> simp [hl]

theorem C4_output_slot_witness :
    (runFunnel none [] [Step.must (some (GoError.tag 1)) []]).2.writeLog.length ≤ 1 :=
  (C4_output_slot [] [Step.must (some (GoError.tag 1)) []]
    (by intro st hst; simp at hst; subst hst; trivial)).1

/-- C5: absorption — if the effective handler chain (the per-call chain, or
`defaultHandlers` when none was given) yields nil, the detection is a
complete no-op: state unchanged, no flush, no panic; in particular `Must`
with `Discard` always continues with nothing changed. -/
theorem C5_absorption (e : Core) (err : GoError) (hs : List Handler)
    (h : applyChain (stateView e)
        (if hs.isEmpty then e.defaultHandlers else hs) err = none) :
    processError e err hs = (none, e) ∧
    ∀ (e' : Core) (err' : GoError), Must e' (some err') [Discard] = (none, e') :=
  ⟨processError_absorbed e err hs h, fun _ _ => rfl⟩

theorem C5_absorption_witness :
    processError (Catch none []) (GoError.tag 1) [Discard] = (none, Catch none []) ∧
    Must (Catch none []) (some (GoError.tag 1)) [Discard] = (none, Catch none []) :=
  ⟨(C5_absorption (Catch none []) (GoError.tag 1) [Discard] rfl).1,
   (C5_absorption (Catch none []) (GoError.tag 1) [Discard] rfl).2 (Catch none [])
     (GoError.tag 1)⟩

/-- C9: fault implies non-nil result — intercepting an external fault sets
`inPanic` and stores a non-nil error; no handler run during the subsequent
flush can null it back out, so the resolved error is non-nil at the end of
that finalize. -/
theorem C9_fault_nonnil (e : Core) (p : ExtPanic) :
    (Handle e (some (PanicVal.ext p))).2.inPanic = true ∧
    (Handle e (some (PanicVal.ext p))).2.err.isSome = true := by
  constructor
  · rw [Handle_ext, reraise_snd]
    exact finishDeferF_inPanic _ _ rfl
  · rw [Handle_ext, reraise_snd]
    exact finishDeferF_err_isSome _ _ (wrapPanic p) rfl

/-- C10: at-most-once invocation — finalize invokes every pending cleanup
action exactly once (its entry is popped before invocation, so the recursive
re-entry after a cleanup panic resumes with the remaining entries only); the
example registers a well-behaved cleanup and a panicking one, and each runs
once. -/
theorem C10_at_most_once (e : Core) (r : Option PanicVal) :
    (Handle e r).2.calls = e.calls ++ actionIds e.deferred ∧
    (runFunnel none [] [.deferOp retNone 1 [],
        .deferOp (panicWith 7) 2 []]).2.calls = [2, 1] :=
  ⟨(Handle_spec e r).1, rfl⟩

end Errc

namespace Errc

theorem actionIds_nil : actionIds [] = [] := rfl

theorem actionIds_cons_action (f : DeferAction) (x : Nat) (ds : List DeferData) :
    actionIds (DeferData.action f x :: ds) = x :: actionIds ds := by
  simp [actionIds, DeferData.actionId]

/-- C2: LIFO cleanup execution — cleanups registered in order A, B, C (with
arbitrary per-entry handler lists and arbitrary success/failure of each
action) execute in order C, B, A when the stack is flushed, every entry
running regardless of earlier entries' errors. -/
theorem C2_cleanups_lifo (e : Core) (ga gb gc : StateView → Nat → Option GoError)
    (a b c : Nat) (hsa hsb hsc : List Handler) (he : e.deferred = []) :
    ((doDefers (Defer (Defer (Defer e (fun s x => Except.ok (ga s x)) a hsa)
        (fun s x => Except.ok (gb s x)) b hsb)
        (fun s x => Except.ok (gc s x)) c hsc) 0).2).calls = e.calls ++ [c, b, a] := by
  set E := Defer (Defer (Defer e (fun s x => Except.ok (ga s x)) a hsa)
      (fun s x => Except.ok (gb s x)) b hsb) (fun s x => Except.ok (gc s x)) c hsc with hE
  have hde : DefersOk e := fun d hd => absurd (he ▸ hd) (List.not_mem_nil d)
  have hok : DefersOk E := by
    rw [hE]
    exact defersOk_Defer _ _ _ _ (defersOk_Defer _ _ _ _ (defersOk_Defer _ _ _ _ hde
      (fun s => ⟨ga s a, rfl⟩)) (fun s => ⟨gb s b, rfl⟩)) (fun s => ⟨gc s c, rfl⟩)
  obtain ⟨l₁, l₂, hsplit, h1, h2, -, -, h5, -⟩ := doDefersGo_zero_spec E.deferred E rfl
  have hnone : (doDefersGo 0 E.deferred E).1 = none := doDefersGo_ok E.deferred E hok
  have hl2 : l₂ = [] := h5 hnone
  have hl1 : l₁ = E.deferred := by
    rw [hl2, List.append_nil] at hsplit; exact hsplit.symm
  show (doDefersGo 0 E.deferred E).2.calls = e.calls ++ [c, b, a]
  rw [h2, hl1]
  show e.calls ++ actionIds E.deferred = e.calls ++ [c, b, a]
  congr 1
  rw [hE]
  show actionIds (DeferData.action (fun s x => Except.ok (gc s x)) c ::
    hsc.map DeferData.marker ++ (DeferData.action (fun s x => Except.ok (gb s x)) b ::
    hsb.map DeferData.marker ++ (DeferData.action (fun s x => Except.ok (ga s x)) a ::
    hsa.map DeferData.marker ++ e.deferred))) = [c, b, a]
  rw [he]
  simp [actionIds_cons_action, actionIds_append, actionIds_markers, actionIds_nil]

theorem C2_cleanups_lifo_witness :
    (Catch none []).deferred = [] ∧
    ((doDefers (Defer (Defer (Defer (Catch none []) (fun _ _ => Except.ok (none : Option GoError)) 1 [])
        (fun _ _ => Except.ok (none : Option GoError)) 2 [])
        (fun _ _ => Except.ok (none : Option GoError)) 3 []) 0).2).calls = [] ++ [3, 2, 1] :=
  ⟨rfl, C2_cleanups_lifo (Catch none []) (fun _ _ => none) (fun _ _ => none) (fun _ _ => none)
    1 2 3 [] [] [] rfl⟩

/-- C6: per-call handlers replace, not compose with, the default chain — a
detection with per-call handlers resolves through exactly that chain (the
defaults never run, as the concrete contrast shows: a default that rewrites
every error to `tag 99` has no effect when a pass-through per-call handler is
supplied, and takes effect when none is); likewise a per-cleanup marker list
resolves a failed cleanup independently of `defaultHandlers`, while a cleanup
without markers falls back to them. -/
theorem C6_handlers_replace (e : Core) (err : GoError) (h0 : Handler) (hs : List Handler) :
    (e.err = none → e.deferred = [] →
      (processError e err (h0 :: hs)).2.err = applyChain (stateView e) (h0 :: hs) err) ∧
    (e.err = none → e.deferred = [] →
      (processError e err []).2.err = applyChain (stateView e) e.defaultHandlers err) ∧
    (runFunnel none [replaceWith 99] [.must (some (.tag 7)) [keepHandler]]).2.err
      = some (GoError.tag 7) ∧
    (runFunnel none [replaceWith 99] [.must (some (.tag 7)) []]).2.err
      = some (GoError.tag 99) ∧
    (∀ dh dh', markerHandlers e.deferred ≠ [] →
      (processDeferError { e with defaultHandlers := dh } err).err
        = (processDeferError { e with defaultHandlers := dh' } err).err) ∧
    (markerHandlers e.deferred = [] → e.err = none →
      (processDeferError e err).err = applyChain (stateView e) e.defaultHandlers err) := by
  refine ⟨?_, ?_, rfl, rfl,
    fun dh dh' hm => processDeferError_defaults_irrelevant e err dh dh' hm,
    fun hm hn => processDeferError_no_markers e err hm hn⟩
  · intro hn he
    simp only [processError]
    cases hc : applyChain (stateView e) (h0 :: hs) err with
    | none => exact hn
    | some err2 =>
      show (bail (if e.err.isNone then writeSlot e err2 else e)).2.err = some err2
      rw [show e.err.isNone = true by simp [hn], if_pos rfl]
      rw [bail_empty (writeSlot e err2) (show e.deferred = [] from he)]
      rfl
  · intro hn he
    simp only [processError]
    cases hc : applyChain (stateView e) e.defaultHandlers err with
    | none => exact hn
    | some err2 =>
      show (bail (if e.err.isNone then writeSlot e err2 else e)).2.err = some err2
      rw [show e.err.isNone = true by simp [hn], if_pos rfl]
      rw [bail_empty (writeSlot e err2) (show e.deferred = [] from he)]
      rfl

theorem C6_handlers_replace_witness :
    (processError (Catch none [replaceWith 99]) (GoError.tag 7) [keepHandler]).2.err
      = some (GoError.tag 7) ∧
    (processDeferError { (Catch none []) with
        defaultHandlers := [replaceWith 99]
        deferred := [DeferData.marker keepHandler] } (GoError.tag 7)).err
      = (processDeferError { (Catch none []) with
        defaultHandlers := []
        deferred := [DeferData.marker keepHandler] } (GoError.tag 7)).err :=
  ⟨((C6_handlers_replace (Catch none [replaceWith 99]) (GoError.tag 7) keepHandler []).1
      rfl rfl).trans rfl,
   (C6_handlers_replace { (Catch none []) with deferred := [DeferData.marker keepHandler] }
      (GoError.tag 7) keepHandler []).2.2.2.2.1 [replaceWith 99] []
      (by simp [markerHandlers, DeferData.isMarker, DeferData.markerHandler])⟩

/-- C7: the private sentinel — the unrecoverable-fault signal raised after an
unabsorbed detection is intercepted only by this funnel's own finalize:
finalize never re-raises it (so no full run ever emits it), and on
interception it is no new information: the remaining cleanups are flushed and
(when they are panic-free) the already-resolved error is the output, with
nothing further stored through the slot. -/
theorem C7_sentinel_private (e : Core) :
    (∀ r, (Handle e r).1 ≠ some PanicVal.ourPanic) ∧
    ((Handle e (some PanicVal.ourPanic)).2.calls = e.calls ++ actionIds e.deferred) ∧
    (∀ v, e.err = some v → (∀ d ∈ e.deferred, OkEntry d) →
      (Handle e (some PanicVal.ourPanic)).1 = none ∧
      (Handle e (some PanicVal.ourPanic)).2.err = some v ∧
      (Handle e (some PanicVal.ourPanic)).2.writeLog = e.writeLog) ∧
    (∀ err0 dh steps, (runFunnel err0 dh steps).1 ≠ some PanicVal.ourPanic) := by
  refine ⟨fun r => (Handle_spec e r).2.2, (Handle_spec e (some PanicVal.ourPanic)).1,
    ?_, ?_⟩
  · intro v hv hok
    rw [Handle_our]
    obtain ⟨hq, hs2⟩ := finishDefer_ok e hok
    have hpre := doDefersGo_err_some e.deferred e v hv
    exact ⟨hq, by rw [hs2]; exact hpre.1, by rw [hs2]; exact hpre.2⟩
  · intro err0 dh steps
    rw [runFunnel_eq]
    exact (Handle_spec _ _).2.2

theorem C7_sentinel_private_witness :
    (Handle (writeSlot (Catch none []) (GoError.tag 4)) (some PanicVal.ourPanic)).1 = none ∧
    (Handle (writeSlot (Catch none []) (GoError.tag 4)) (some PanicVal.ourPanic)).2.err
      = some (GoError.tag 4) :=
  ⟨((C7_sentinel_private (writeSlot (Catch none []) (GoError.tag 4))).2.2.1 (GoError.tag 4)
      rfl (by intro d hd; simp [writeSlot, Catch] at hd)).1,
   ((C7_sentinel_private (writeSlot (Catch none []) (GoError.tag 4))).2.2.1 (GoError.tag 4)
      rfl (by intro d hd; simp [writeSlot, Catch] at hd)).2.1⟩

/-- C8: per-cleanup marker orientation — registration pushes the markers
first, so the action entry sits directly on top of its own markers; when the
failed action has been popped, the scan reads exactly that registration's
markers (it stops at the next action entry, so markers of other registrations
never apply), and the failure is resolved through those markers alone, in
order. -/
theorem C8_marker_scope (e : Core) (f : DeferAction) (x : Nat)
    (hs : List Handler) (err : GoError) (rest : List DeferData) :
    ((Defer e f x hs).deferred
        = DeferData.action f x :: hs.map DeferData.marker ++ e.deferred) ∧
    (noMarkerTop rest = true → markerHandlers (hs.map DeferData.marker ++ rest) = hs) ∧
    (e.deferred = hs.map DeferData.marker ++ rest → hs ≠ [] → noMarkerTop rest = true →
      e.err = none →
      (processDeferError e err).err = applyChain (stateView e) hs err) := by
  refine ⟨rfl, fun hr => markerHandlers_push hs rest hr, ?_⟩
  intro hd hne hr hn
  have hm : markerHandlers e.deferred = hs := by
    rw [hd]; exact markerHandlers_push hs rest hr
  have hm' : markerHandlers e.deferred ≠ [] := by rw [hm]; exact hne
  rw [processDeferError_with_markers e err hm', hm]
  cases hc : applyChain (stateView e) hs err with
  | none => exact hn
  | some err1 =>
    show (if e.err.isNone then some err1 else e.err) = some err1
    rw [if_pos (show e.err.isNone = true by simp [hn])]

theorem C8_marker_scope_witness :
    (processDeferError { (Catch none [replaceWith 99]) with
        deferred := [DeferData.marker keepHandler] } (GoError.tag 7)).err
      = some (GoError.tag 7) :=
  ((C8_marker_scope { (Catch none [replaceWith 99]) with
      deferred := [DeferData.marker keepHandler] } retNone 0 [keepHandler]
      (GoError.tag 7) []).2.2 rfl (List.cons_ne_nil _ _) rfl rfl).trans rfl

end Errc
